import Mathlib

/-!
Verification of the Markdown link scanner and wiki-link rewriter

Shallow embedding of the link-processing core of the repository:

* `scripts/link_utils.py`  — the escape-aware Markdown link scanner
  (`find_closing`, `find_inline_links`, `extract_links`, the exclusion-range
  index and helper predicates);
* `scripts/sync-wiki.py`   — the wiki-link rewriter (`convert_links`,
  `resolve_relative_path`, `is_in_table_row`, the static `WIKI_STRUCTURE`
  table);
* `scripts/check_wiki_links.py` — the reverse wiki-link parser
  (`_split_wiki_link_on_pipe`, `_parse_wiki_link`).

Python strings are modelled as `List Char` (indexed by code point, exactly as
Python indexes `str`).  Python's `-1`-returning searches are modelled with
`Option Nat`.  Loops are modelled as structurally recursive functions on an
explicit fuel argument; every wrapper supplies fuel `text.length + 1`, which a
step count argument shows is never exhausted (every iteration advances the
cursor by at least one while the cursor stays below `text.length`).
-/

namespace WikiLinks

/-- The whitespace code points recognised by Python's `str.isspace`, `str.strip`
and the regex class `\s` (for `str` patterns).  All documents handled by the
repository only exercise the ASCII members. -/
def isPySpace (c : Char) : Bool :=
  let n := c.toNat
  decide (n = 0x20 ∨ (0x9 ≤ n ∧ n ≤ 0xd) ∨ (0x1c ≤ n ∧ n ≤ 0x1f) ∨ n = 0x85 ∨
    n = 0xa0 ∨ n = 0x1680 ∨ (0x2000 ≤ n ∧ n ≤ 0x200a) ∨ n = 0x2028 ∨
    n = 0x2029 ∨ n = 0x202f ∨ n = 0x205f ∨ n = 0x3000)


/-- The line-boundary code points of Python's `str.splitlines`. -/
def isLineBreak (c : Char) : Bool :=
  let n := c.toNat
  decide (n = 0xa ∨ n = 0xd ∨ n = 0xb ∨ n = 0xc ∨ n = 0x1c ∨ n = 0x1d ∨
    n = 0x1e ∨ n = 0x85 ∨ n = 0x2028 ∨ n = 0x2029)


/-- Python slice `l[a:b]` (for `0 ≤ a ≤ b` clamped to the length, which is the
only way the sources use it). -/
def slice (l : List Char) (a b : Nat) : List Char :=
  (l.drop a).take (b - a)

/-- Python `str.strip()` (no argument): drop leading and trailing whitespace. -/
def pyStrip (l : List Char) : List Char :=
  ((l.dropWhile isPySpace).reverse.dropWhile isPySpace).reverse

/-- Python `str.splitlines(keepends=True)`: cut after every line boundary,
keeping the boundary characters; `\r\n` counts as a single boundary. -/
def splitLinesKeepends (text : List Char) : List (List Char) :=
  go text.length text
where
  go : Nat → List Char → List (List Char)
    | 0, l => if l = [] then [] else [l]
    | _, [] => []
    | fuel + 1, l =>
      match l.findIdx? isLineBreak with
      | none => [l]
      | some k =>
        let j := if l.get? k = some '\r' ∧ l.get? (k + 1) = some '\n'
                 then k + 2 else k + 1
        l.take j :: go fuel (l.drop j)

/-- `link_utils.find_closing`, inner `while` loop.  `depth` is an integer
exactly as in Python (it can go negative when `start` does not hold the
opener).  A backslash advances the cursor by two, skipping the escaped
character unexamined. -/
def findClosingAux (text : List Char) (opener closer : Char) :
    Nat → Nat → Int → Option Nat
  | 0, _, _ => none
  | fuel + 1, i, depth =>
    if h : i < text.length then
      let current := text.get ⟨i, h⟩
      if current = '\\' then
        findClosingAux text opener closer fuel (i + 2) depth
      else if current = opener then
        findClosingAux text opener closer fuel (i + 1) (depth + 1)
      else if current = closer then
        if depth - 1 = 0 then some i
        else findClosingAux text opener closer fuel (i + 1) (depth - 1)
      else
        findClosingAux text opener closer fuel (i + 1) depth
    else none

/-- `link_utils.find_closing(text, start, opener, closer)`; Python's `-1`
result is `none`. -/
def find_closing (text : List Char) (start : Nat) (opener closer : Char) :
    Option Nat :=
  findClosingAux text opener closer (text.length + 1) start 0

/-- `link_utils.extract_href`: pull the href out of the raw destination
content between the parentheses of an inline link. -/
def extract_href (dest_content : List Char) : List Char :=
  let content := pyStrip dest_content
  if content = [] then []
  else if content.head? = some '<' ∧ content.contains '>' then
    match content.findIdx? (· = '>') with
    | some closing => pyStrip (slice content 1 closing)
    | none => []    -- unreachable: guarded by `content.contains '>'`
  else
    content.takeWhile (fun c => ¬ isPySpace c)

/-- One detected inline link (`link_utils.InlineLink`).  `endPos` is Python's
`end` field (a Lean keyword). -/
structure InlineLink where
  start : Nat
  endPos : Nat
  text : List Char
  href : List Char
  separator : List Char
  dest_content : List Char
  segment : List Char
deriving DecidableEq, Repr

/-- The whitespace-skipping `while` loop between `]` and `(` in
`find_inline_links`: first index `≥ j` whose character is not whitespace
(or the end of text). -/
def skipWs (text : List Char) : Nat → Nat → Nat
  | 0, j => j
  | fuel + 1, j =>
    if h : j < text.length then
      if isPySpace (text.get ⟨j, h⟩) then skipWs text fuel (j + 1) else j
    else j

/-- `link_utils.find_inline_links`, main scanning loop. -/
def findInlineLinksAux (text : List Char) : Nat → Nat → List InlineLink
  | 0, _ => []
  | fuel + 1, idx =>
    if h : idx < text.length then
      if text.get ⟨idx, h⟩ ≠ '[' then
        findInlineLinksAux text fuel (idx + 1)
      else if 0 < idx ∧ text.get? (idx - 1) = some '!' then
        findInlineLinksAux text fuel (idx + 1)
      else
        match find_closing text idx '[' ']' with
        | none => findInlineLinksAux text fuel (idx + 1)
        | some close =>
          let j := skipWs text (text.length + 1) (close + 1)
          if hj : j < text.length then
            if text.get ⟨j, hj⟩ ≠ '(' then
              findInlineLinksAux text fuel (close + 1)
            else
              match find_closing text j '(' ')' with
              | none => findInlineLinksAux text fuel (close + 1)
              | some dest_end =>
                let dest_content := slice text (j + 1) dest_end
                let href := extract_href dest_content
                if href = [] then
                  findInlineLinksAux text fuel (dest_end + 1)
                else
                  { start := idx
                    endPos := dest_end + 1
                    text := slice text (idx + 1) close
                    href := href
                    separator := slice text (close + 1) j
                    dest_content := dest_content
                    segment := slice text idx (dest_end + 1) } ::
                  findInlineLinksAux text fuel (dest_end + 1)
          else
            findInlineLinksAux text fuel (close + 1)
    else []

/-- `link_utils.find_inline_links(text)` as a list. -/
def find_inline_links (text : List Char) : List InlineLink :=
  findInlineLinksAux text (text.length + 1) 0

/-- `link_utils.in_ranges`: does `index` fall inside any half-open range? -/
def in_ranges (index : Nat) (ranges : List (Nat × Nat)) : Bool :=
  ranges.any (fun r => decide (r.1 ≤ index ∧ index < r.2))

/-- `link_utils.overlaps_any`: does `[start, stop)` intersect any range? -/
def overlaps_any (start stop : Nat) (ranges : List (Nat × Nat)) : Bool :=
  ranges.any (fun r => decide (start < r.2 ∧ stop > r.1))

/-- The regex `^\s*(```+|~~~+)` of `find_code_fence_ranges`: after leading
whitespace the line starts with three or more backticks or tildes.  (Neither
fence character is whitespace, so the greedy `\s*` never backtracks.) -/
def fenceOpens (line : List Char) : Bool :=
  let rest := line.dropWhile isPySpace
  ("```".toList.isPrefixOf rest) ∨ ("~~~".toList.isPrefixOf rest)

/-- `link_utils.find_code_fence_ranges`, folding over
`splitlines(keepends=True)` with the `(in_fence, fence_char, fence_start,
offset)` state of the Python loop. -/
def find_code_fence_ranges (text : List Char) : List (Nat × Nat) :=
  go (splitLinesKeepends text) false '`' 0 0
where
  go : List (List Char) → Bool → Char → Nat → Nat → List (Nat × Nat)
    | [], in_fence, _, fence_start, _ =>
      if in_fence then [(fence_start, text.length)] else []
    | line :: rest, in_fence, fence_char, fence_start, offset =>
      if in_fence = false then
        if fenceOpens line then
          go rest true ((pyStrip line).headD '`') offset (offset + line.length)
        else
          go rest false fence_char fence_start (offset + line.length)
      else
        if [fence_char, fence_char, fence_char].isPrefixOf (pyStrip line) then
          (fence_start, offset + line.length) ::
            go rest false fence_char fence_start (offset + line.length)
        else
          go rest true fence_char fence_start (offset + line.length)

/-- Length of the backtick run starting at position `i` (the `run` counting
loops of `find_inline_code_ranges`). -/
def backtickRun (text : List Char) (i : Nat) : Nat :=
  ((text.drop i).takeWhile (· = '`')).length

/-- The inner `while j < length` search of `find_inline_code_ranges`: starting
at `j`, find the start of the next backtick run of length exactly `run`.
Runs of a different length are skipped whole. -/
def findInlineCodeClose (text : List Char) (run : Nat) :
    Nat → Nat → Option Nat
  | 0, _ => none
  | fuel + 1, j =>
    if h : j < text.length then
      if text.get ⟨j, h⟩ ≠ '`' then findInlineCodeClose text run fuel (j + 1)
      else
        let close_run := backtickRun text j
        if close_run = run then some j
        else findInlineCodeClose text run fuel (j + close_run)
    else none

/-- `link_utils.find_inline_code_ranges`, outer loop. -/
def findInlineCodeAux (text : List Char) : Nat → Nat → List (Nat × Nat)
  | 0, _ => []
  | fuel + 1, i =>
    if h : i < text.length then
      if text.get ⟨i, h⟩ ≠ '`' then findInlineCodeAux text fuel (i + 1)
      else
        let run := backtickRun text i
        if 3 ≤ run then findInlineCodeAux text fuel (i + run)
        else
          match findInlineCodeClose text run (text.length + 1) (i + run) with
          | some j => (i, j + run) :: findInlineCodeAux text fuel (j + run)
          | none => findInlineCodeAux text fuel (i + run)
    else []

/-- `link_utils.find_inline_code_ranges(text)`. -/
def find_inline_code_ranges (text : List Char) : List (Nat × Nat) :=
  findInlineCodeAux text (text.length + 1) 0

/-- Scan for the regex `<[a-zA-Z][^>]*>` of `find_html_tag_ranges`: a `<`
followed by an ASCII letter matches up to the first later `>`; `re.finditer`
resumes after the match, or at the next position on failure. -/
def findHtmlTagAux (text : List Char) : Nat → Nat → List (Nat × Nat)
  | 0, _ => []
  | fuel + 1, i =>
    if h : i < text.length then
      if text.get ⟨i, h⟩ = '<' ∧ (text.getD (i + 1) ' ').isAlpha ∧ i + 1 < text.length then
        match (text.drop (i + 2)).findIdx? (· = '>') with
        | some k => (i, i + 2 + k + 1) :: findHtmlTagAux text fuel (i + 2 + k + 1)
        | none => findHtmlTagAux text fuel (i + 1)
      else findHtmlTagAux text fuel (i + 1)
    else []

/-- `link_utils.find_html_tag_ranges(text)`. -/
def find_html_tag_ranges (text : List Char) : List (Nat × Nat) :=
  findHtmlTagAux text (text.length + 1) 0

/-- `link_utils.build_line_offsets`: cumulative start offset of every line,
with the leading `0` sentinel. -/
def build_line_offsets (text : List Char) : List Nat :=
  go (splitLinesKeepends text) 0
where
  go : List (List Char) → Nat → List Nat
    | [], total => [total]
    | line :: rest, total => total :: go rest (total + line.length)

/-- `bisect.bisect_right` on a sorted list equals the number of elements `≤ x`;
`link_utils.index_to_line_column` uses it on the sorted offset list. -/
def index_to_line_column (offsets : List Nat) (index : Nat) :
    Nat × Nat :=
  let line := offsets.countP (fun o => decide (o ≤ index)) - 1
  let column := index - offsets.getD line 0 + 1
  (line + 1, column)

/-- One link occurrence (`link_utils.LinkMatch`); `endPos` is Python's `end`. -/
structure LinkMatch where
  kind : String
  start : Nat
  endPos : Nat
  text : List Char
  href : List Char
  line : Nat
  column : Nat
  segment : List Char
  separator : List Char := []
  dest_content : List Char := []
deriving DecidableEq, Repr

/-- Build the `kind="inline"` `LinkMatch` appended by `extract_links`. -/
def inlineToMatch (offsets : List Nat) (il : InlineLink) : LinkMatch :=
  let lc := index_to_line_column offsets il.start
  { kind := "inline", start := il.start, endPos := il.endPos,
    text := il.text, href := il.href, line := lc.1, column := lc.2,
    segment := il.segment, separator := il.separator,
    dest_content := il.dest_content }

/-- Matches of the autolink regex `<(https?://[^>\s]+)>`, in `re.finditer`
order: `(start, end, group 1)`.  The greedy character class stops at the first
`>` or whitespace, after which a literal `>` must follow. -/
def autolinkScanAux (text : List Char) : Nat → Nat → List (Nat × Nat × List Char)
  | 0, _ => []
  | fuel + 1, i =>
    if h : i < text.length then
      let rest := text.drop (i + 1)
      let schemeLen : Nat :=
        if "https://".toList.isPrefixOf rest then 8
        else if "http://".toList.isPrefixOf rest then 7 else 0
      if text.get ⟨i, h⟩ = '<' ∧ schemeLen ≠ 0 then
        let run := ((text.drop (i + 1 + schemeLen)).takeWhile
          (fun c => ¬ isPySpace c ∧ c ≠ '>')).length
        if 1 ≤ run ∧ text.get? (i + 1 + schemeLen + run) = some '>' then
          (i, i + schemeLen + run + 2, slice text (i + 1) (i + 1 + schemeLen + run)) ::
            autolinkScanAux text fuel (i + schemeLen + run + 2)
        else autolinkScanAux text fuel (i + 1)
      else autolinkScanAux text fuel (i + 1)
    else []

/-- All matches of the autolink regex over `text`. -/
def autolink_scan (text : List Char) : List (Nat × Nat × List Char) :=
  autolinkScanAux text (text.length + 1) 0

/-- Matches `(start, end)` of the bare-URL regex `https?://[^\s)<>"']+`, in
`re.finditer` order. -/
def bareScanAux (text : List Char) : Nat → Nat → List (Nat × Nat)
  | 0, _ => []
  | fuel + 1, i =>
    if i < text.length then
      let rest := text.drop i
      let schemeLen : Nat :=
        if "https://".toList.isPrefixOf rest then 8
        else if "http://".toList.isPrefixOf rest then 7 else 0
      if schemeLen ≠ 0 then
        let run := ((text.drop (i + schemeLen)).takeWhile
          (fun c => ¬ isPySpace c ∧ c ≠ ')' ∧ c ≠ '<' ∧ c ≠ '>' ∧
                    c ≠ '"' ∧ c ≠ '\'')).length
        if 1 ≤ run then
          (i, i + schemeLen + run) :: bareScanAux text fuel (i + schemeLen + run)
        else bareScanAux text fuel (i + 1)
      else bareScanAux text fuel (i + 1)
    else []

/-- All matches of the bare-URL regex over `text`. -/
def bare_scan (text : List Char) : List (Nat × Nat) :=
  bareScanAux text (text.length + 1) 0

/-- The trailing-punctuation strip of the bare-URL loop: the `while href and
href[-1] in ".,;:!?"` loop returns the shortened href and the stripped
suffix. -/
def stripTrailingPunct (href : List Char) : List Char × List Char :=
  let rev := href.reverse
  let t := rev.takeWhile (fun c => c ∈ ['.', ',', ';', ':', '!', '?'])
  ((rev.drop t.length).reverse, t.reverse)

/-- The autolink `for` loop of `extract_links`: accumulate accepted autolink
matches, extending `used_ranges` in step. -/
def processAutolinks (skip : List (Nat × Nat)) (offsets : List Nat)
    (text : List Char) :
    List (Nat × Nat × List Char) → List LinkMatch → List (Nat × Nat) →
    List LinkMatch × List (Nat × Nat)
  | [], ms, used => (ms, used)
  | (s, e, href) :: rest, ms, used =>
    if in_ranges s skip ∨ overlaps_any s e used then
      processAutolinks skip offsets text rest ms used
    else
      let lc := index_to_line_column offsets s
      let m : LinkMatch :=
        { kind := "autolink", start := s, endPos := e, text := href,
          href := href, line := lc.1, column := lc.2,
          segment := slice text s e }
      processAutolinks skip offsets text rest (ms ++ [m]) (used ++ [(s, e)])

/-- The bare-URL `for` loop of `extract_links`. -/
def processBares (skip : List (Nat × Nat)) (offsets : List Nat)
    (text : List Char) :
    List (Nat × Nat) → List LinkMatch → List (Nat × Nat) →
    List LinkMatch × List (Nat × Nat)
  | [], ms, used => (ms, used)
  | (s, e) :: rest, ms, used =>
    if in_ranges s skip ∨ overlaps_any s e used then
      processBares skip offsets text rest ms used
    else
      let p := stripTrailingPunct (slice text s e)
      let href := p.1
      let e' := e - p.2.length
      if href = [] then processBares skip offsets text rest ms used
      else
        let lc := index_to_line_column offsets s
        let m : LinkMatch :=
          { kind := "bare", start := s, endPos := e', text := href,
            href := href, line := lc.1, column := lc.2,
            segment := slice text s e', separator := p.2 }
        processBares skip offsets text rest (ms ++ [m]) (used ++ [(s, e')])

/-- The ordering key of the final `sorted(matches, key=lambda m: m.start)`. -/
def lmLE (a b : LinkMatch) : Prop := a.start ≤ b.start

instance : DecidableRel lmLE := fun a b => Nat.decLe a.start b.start

instance : IsTotal LinkMatch lmLE := ⟨fun a b => Nat.le_total a.start b.start⟩

instance : IsTrans LinkMatch lmLE := ⟨fun _ _ _ => Nat.le_trans⟩

/-- The three concatenated exclusion lists of `extract_links`. -/
def skip_ranges_of (text : List Char) : List (Nat × Nat) :=
  find_code_fence_ranges text ++ find_inline_code_ranges text ++
    find_html_tag_ranges text

/-- The inline-link pass of `extract_links`: scan, drop occurrences starting
inside an exclusion range, convert to `LinkMatch`. -/
def inlineMatchesOf (text : List Char) : List LinkMatch :=
  ((find_inline_links text).filter
    (fun il => ¬ in_ranges il.start (skip_ranges_of text))).map
    (inlineToMatch (build_line_offsets text))

/-- `link_utils.extract_links(text)`: inline links first (filtered by the
exclusion ranges), then autolinks and bare URLs (each also checked against the
spans already claimed), finally stably sorted by `start` (Python's `sorted` is
stable; `insertionSort` inserts before the first strictly-greater key, which
is the same stable order). -/
def extract_links (text : List Char) : List LinkMatch :=
  let skip := skip_ranges_of text
  let offsets := build_line_offsets text
  let inl := inlineMatchesOf text
  let used0 := inl.map (fun m => (m.start, m.endPos))
  let r1 := processAutolinks skip offsets text (autolink_scan text) inl used0
  let r2 := processBares skip offsets text (bare_scan text) r1.1 r1.2
  List.insertionSort lmLE r2.1

/-- Hex digit value for `urllib.parse.unquote`. -/
def hexVal (c : Char) : Option Nat :=
  if '0' ≤ c ∧ c ≤ '9' then some (c.toNat - 48)
  else if 'a' ≤ c ∧ c ≤ 'f' then some (c.toNat - 87)
  else if 'A' ≤ c ∧ c ≤ 'F' then some (c.toNat - 70)
  else none

/-- UTF-8 decoding with U+FFFD replacement on malformed input
(`bytes.decode("utf-8", errors="replace")`); only well-formed sequences are
exercised by the repository's documents. -/
def utf8DecodeAux : Nat → List Nat → List Char
  | 0, _ => []
  | _, [] => []
  | fuel + 1, b :: rest =>
    if b < 0x80 then
      Char.ofNat b :: utf8DecodeAux fuel rest
    else if 0xc2 ≤ b ∧ b ≤ 0xdf then
      match rest with
      | c1 :: rest2 =>
        if 0x80 ≤ c1 ∧ c1 ≤ 0xbf then
          Char.ofNat ((b - 0xc0) * 64 + (c1 - 0x80)) :: utf8DecodeAux fuel rest2
        else '\ufffd' :: utf8DecodeAux fuel rest
      | [] => ['\ufffd']
    else if 0xe0 ≤ b ∧ b ≤ 0xef then
      match rest with
      | c1 :: c2 :: rest3 =>
        if (0x80 ≤ c1 ∧ c1 ≤ 0xbf) ∧ (0x80 ≤ c2 ∧ c2 ≤ 0xbf) ∧
           (b ≠ 0xe0 ∨ 0xa0 ≤ c1) ∧ (b ≠ 0xed ∨ c1 ≤ 0x9f) then
          Char.ofNat ((b - 0xe0) * 4096 + (c1 - 0x80) * 64 + (c2 - 0x80)) ::
            utf8DecodeAux fuel rest3
        else '\ufffd' :: utf8DecodeAux fuel rest
      | _ => '\ufffd' :: utf8DecodeAux fuel rest
    else if 0xf0 ≤ b ∧ b ≤ 0xf4 then
      match rest with
      | c1 :: c2 :: c3 :: rest4 =>
        if (0x80 ≤ c1 ∧ c1 ≤ 0xbf) ∧ (0x80 ≤ c2 ∧ c2 ≤ 0xbf) ∧
           (0x80 ≤ c3 ∧ c3 ≤ 0xbf) ∧ (b ≠ 0xf0 ∨ 0x90 ≤ c1) ∧
           (b ≠ 0xf4 ∨ c1 ≤ 0x8f) then
          Char.ofNat ((b - 0xf0) * 262144 + (c1 - 0x80) * 4096 +
            (c2 - 0x80) * 64 + (c3 - 0x80)) :: utf8DecodeAux fuel rest4
        else '\ufffd' :: utf8DecodeAux fuel rest
      | _ => '\ufffd' :: utf8DecodeAux fuel rest
    else '\ufffd' :: utf8DecodeAux fuel rest

/-- `bytes.decode("utf-8", errors="replace")`. -/
def utf8Decode (bs : List Nat) : List Char :=
  utf8DecodeAux (bs.length + 1) bs

/-- Collect the maximal leading run of `%XX` escapes as bytes, returning the
bytes and the remaining characters. -/
def collectPctBytes : List Char → List Nat × List Char
  | '%' :: h1 :: h2 :: rest =>
    match hexVal h1, hexVal h2 with
    | some v1, some v2 =>
      let p := collectPctBytes rest
      ((v1 * 16 + v2) :: p.1, p.2)
    | _, _ => ([], '%' :: h1 :: h2 :: rest)
  | l => ([], l)

/-- `urllib.parse.unquote` (UTF-8, `errors="replace"`): decode maximal runs of
`%XX` escapes as UTF-8 byte sequences, leave everything else unchanged. -/
def unquoteAux : Nat → List Char → List Char
  | 0, l => l
  | _, [] => []
  | fuel + 1, c :: rest =>
    if c = '%' then
      let p := collectPctBytes (c :: rest)
      if p.1 = [] then c :: unquoteAux fuel rest
      else utf8Decode p.1 ++ unquoteAux fuel p.2
    else c :: unquoteAux fuel rest

/-- `urllib.parse.unquote(s)`. -/
def unquote (s : List Char) : List Char :=
  unquoteAux (s.length + 1) s

/-- `link_utils.split_anchor(href)`: split on the first `#`, URL-decoding both
parts; no `#` gives anchor `none`. -/
def split_anchor (href : List Char) : List Char × Option (List Char) :=
  if href.contains '#' then
    let path := href.takeWhile (· ≠ '#')
    let anchor := href.drop (path.length + 1)
    (unquote path, some (unquote anchor))
  else (unquote href, none)

/-!
Part 2: `scripts/sync-wiki.py` — the Wiki Link Rewriter

`PurePosixPath` is modelled by its `parts` decomposition: split on `/`, drop
empty and `"."` components, and keep a leading `"/"` root part for absolute
paths (exactly `PurePosixPath.parts`; the archaic `//`-root distinction is not
modelled, and no repository path is absolute).
-/

/-- `PurePosixPath(p).parts`. -/
def posixParts (p : List Char) : List (List Char) :=
  let comps := (p.splitOn '/').filter (fun c => c ≠ [] ∧ c ≠ ['.'])
  if p.head? = some '/' then ['/'] :: comps else comps

/-- `str(PurePosixPath(*parts))`: `"."` for no parts, otherwise the
`/`-joined parts (a leading `"/"` part marks an absolute path). -/
def posixJoin (parts : List (List Char)) : List Char :=
  match parts with
  | [] => ['.']
  | ['/'] :: rest => '/' :: (List.intercalate ['/'] rest)
  | _ => List.intercalate ['/'] parts

/-- `sync_wiki.normalize_path`: `str(PurePosixPath(Path(path)))` (POSIX
host). -/
def normalize_path (p : List Char) : List Char :=
  posixJoin (posixParts p)

/-- `sync_wiki.remove_md_suffix`: `path.removesuffix(".md")`. -/
def remove_md_suffix (p : List Char) : List Char :=
  if ".md".toList.isSuffixOf p then p.take (p.length - 3) else p

/-- The `for part in resolved.parts` normalisation loop of
`resolve_relative_path`: accumulated segments and the root-escape count. -/
def resolveParts : List (List Char) → List (List Char) → Nat →
    List (List Char) × Nat
  | [], acc, esc => (acc, esc)
  | part :: rest, acc, esc =>
    if part = ['.', '.'] then
      match acc with
      | [] => resolveParts rest [] (esc + 1)
      | _ => resolveParts rest acc.dropLast esc
    else if part = ['.'] then resolveParts rest acc esc
    else resolveParts rest (acc ++ [part]) esc

/-- `sync_wiki.resolve_relative_path(source_file, link)`: `None` (here
`none`) exactly when a `..` is met with no accumulated segment to pop. -/
def resolve_relative_path (source_file link : List Char) :
    Option (List Char) :=
  let source_dir := (posixParts source_file).dropLast
  let resolved :=
    if posixJoin source_dir = ['.'] then posixParts link
    else if link.head? = some '/' then posixParts link
    else source_dir ++ posixParts link
  let p := resolveParts resolved [] 0
  if 0 < p.2 then none
  else some (if p.1 = [] then ['.'] else posixJoin p.1)

/-- Start index (inclusive) and end index (exclusive) of the line containing
`position`: `content.rfind("\n", 0, position) + 1` and
`content.find("\n", position)` (end of text when absent). -/
def lineBoundsAt (content : List Char) (position : Nat) : Nat × Nat :=
  let ls := match (slice content 0 position).reverse.findIdx? (· = '\n') with
    | some k => position - 1 - k + 1
    | none => 0
  let le := match (content.drop position).findIdx? (· = '\n') with
    | some k => position + k
    | none => content.length
  (ls, le)

/-- The line of `content` containing `position`. -/
def lineAt (content : List Char) (position : Nat) : List Char :=
  let b := lineBoundsAt content position
  slice content b.1 b.2

/-- `sync_wiki.is_in_table_row(content, position)`: the line's stripped form
must start with `|` and not consist solely of `|`, `-`, `:` and spaces. -/
def is_in_table_row (content : List Char) (position : Nat) : Bool :=
  let stripped := pyStrip (lineAt content position)
  match stripped with
  | [] => false
  | c :: _ =>
    if c ≠ '|' then false
    else if stripped.all (fun ch => ch ∈ ['|', '-', ':', ' ']) then false
    else true

/-- `sync_wiki.WIKI_STRUCTURE`: the static source-path → wiki-page table. -/
def wiki_structure : List (String × String) := [
  ("best-practices/README.md", "Best-Practices"),
  ("best-practices/01-lifecycle-methods.md", "Lifecycle-Methods"),
  ("best-practices/02-null-checks.md", "Null-Checks"),
  ("best-practices/03-component-access.md", "Component-Access"),
  ("best-practices/04-serialization.md", "Serialization"),
  ("best-practices/05-coroutines.md", "Coroutines"),
  ("best-practices/06-physics.md", "Physics"),
  ("best-practices/07-performance-memory.md", "Performance-and-Memory"),
  ("best-practices/08-scriptable-objects.md", "ScriptableObjects"),
  ("best-practices/09-object-pooling.md", "Object-Pooling"),
  ("best-practices/10-event-systems.md", "Event-Systems"),
  ("best-practices/11-addressables.md", "Addressables"),
  ("best-practices/12-scene-loading.md", "Scene-Loading"),
  ("best-practices/13-jobs-burst.md", "Jobs-and-Burst"),
  ("best-practices/14-async-await.md", "Async-Await"),
  ("best-practices/15-profiling.md", "Profiling"),
  ("best-practices/16-automated-testing-ci.md", "Testing-and-CI"),
  ("best-practices/17-input-architecture.md", "Input-Architecture"),
  ("best-practices/18-save-load.md", "Save-Load"),
  ("animancer/README.md", "Animancer"),
  ("animancer/01-getting-started.md", "Animancer-Getting-Started"),
  ("animancer/02-core-concepts.md", "Animancer-Core-Concepts"),
  ("animancer/03-advanced-techniques.md", "Animancer-Advanced"),
  ("animancer/04-best-practices.md", "Animancer-Best-Practices"),
  ("animancer/05-code-examples.md", "Animancer-Code-Examples"),
  ("primetween/README.md", "PrimeTween"),
  ("primetween/01-getting-started.md", "PrimeTween-Getting-Started"),
  ("primetween/02-why-primetween.md", "PrimeTween-Why"),
  ("primetween/03-api-reference.md", "PrimeTween-API"),
  ("primetween/04-common-patterns.md", "PrimeTween-Patterns"),
  ("primetween/05-anti-patterns.md", "PrimeTween-Anti-Patterns"),
  ("feel/README.md", "Feel"),
  ("feel/01-getting-started.md", "Feel-Getting-Started"),
  ("feel/02-why-feel.md", "Feel-Why"),
  ("feel/03-feedback-catalog.md", "Feel-Feedback-Catalog"),
  ("feel/04-advanced-techniques.md", "Feel-Advanced"),
  ("feel/05-troubleshooting.md", "Feel-Troubleshooting"),
  ("hot-reload/README.md", "Hot-Reload"),
  ("hot-reload/01-getting-started.md", "Hot-Reload-Getting-Started"),
  ("hot-reload/02-why-hot-reload.md", "Hot-Reload-Why"),
  ("hot-reload/03-how-to-use.md", "Hot-Reload-Usage"),
  ("hot-reload/04-troubleshooting.md", "Hot-Reload-Troubleshooting"),
  ("hot-reload/05-best-practices.md", "Hot-Reload-Best-Practices"),
  ("odin/README.md", "Odin-Inspector"),
  ("odin/01-getting-started.md", "Odin-Getting-Started"),
  ("odin/02-core-features.md", "Odin-Core-Features"),
  ("odin/03-advanced-techniques.md", "Odin-Advanced"),
  ("odin/04-common-patterns.md", "Odin-Patterns"),
  ("odin/05-best-practices.md", "Odin-Best-Practices"),
  ("assembly-definitions/README.md", "Assembly-Definitions"),
  ("assembly-definitions/01-getting-started.md", "Assembly-Definitions-Getting-Started"),
  ("assembly-definitions/02-core-concepts.md", "Assembly-Definitions-Core-Concepts"),
  ("assembly-definitions/03-advanced-techniques.md", "Assembly-Definitions-Advanced"),
  ("assembly-definitions/04-common-patterns.md", "Assembly-Definitions-Patterns"),
  ("assembly-definitions/05-best-practices.md", "Assembly-Definitions-Best-Practices"),
  ("input-system/README.md", "Input-System"),
  ("input-system/01-getting-started.md", "Input-System-Getting-Started"),
  ("input-system/02-core-concepts.md", "Input-System-Core-Concepts"),
  ("input-system/03-advanced-techniques.md", "Input-System-Advanced"),
  ("input-system/04-common-patterns.md", "Input-System-Patterns"),
  ("input-system/05-troubleshooting.md", "Input-System-Troubleshooting"),
  ("tooling/README.md", "Development-Tooling"),
  ("tooling/01-csharpier.md", "CSharpier"),
  ("tooling/02-editorconfig.md", "EditorConfig"),
  ("tooling/03-nuget-for-unity.md", "NuGet-for-Unity"),
  ("tooling/04-heap-allocation-viewer.md", "Heap-Allocation-Viewer"),
  ("dxmessaging/README.md", "DxMessaging"),
  ("graphy/README.md", "Graphy"),
  ("better-build-info/README.md", "Better-Build-Info"),
  ("asset-usage-finder/README.md", "Asset-Usage-Finder"),
  ("unity-helpers/README.md", "Unity-Helpers")]

/-- `sync_wiki.ROOT_WIKI_NAMES`. -/
def root_wiki_names : List (String × String) :=
  [("README", "Home"), ("CONTRIBUTING", "Contributing"),
   ("CHANGELOG", "Changelog")]

/-- One `_unmapped_links` record: `(source_file, href, reason)`. -/
structure UnmappedRecord where
  source_file : List Char
  href : List Char
  reason : String
deriving DecidableEq, Repr

/-- The `WIKI_STRUCTURE` lookup loop of `convert_links`: first entry whose
`.md`-stripped key equals the resolved path, then the `ROOT_WIKI_NAMES`
fallback. -/
def lookupWikiName (table : List (String × String))
    (resolved_without_ext : List Char) : Option (List Char) :=
  match table.find? (fun e => remove_md_suffix e.1.toList = resolved_without_ext) with
  | some e => some e.2.toList
  | none =>
    match root_wiki_names.find? (fun e => e.1.toList = resolved_without_ext) with
    | some e => some e.2.toList
    | none => none

/-- Python `result[:start] + new + result[end:]`. -/
def spliceAt (result : List Char) (start stop : Nat) (new : List Char) :
    List Char :=
  result.take start ++ new ++ result.drop stop

/-- The body of `convert_links`' `for link_match in reversed(links)` loop:
given the original document (for table-row detection), the skip ranges, the
source file and the page table, transform the `(result, unmapped)` state by
one link occurrence. -/
def convertLinkStep (table : List (String × String)) (content : List Char)
    (skip : List (Nat × Nat)) (source_file : List Char)
    (st : List Char × List UnmappedRecord) (lm : LinkMatch) :
    List Char × List UnmappedRecord :=
  if in_ranges lm.start skip then st
  else if lm.kind ≠ "inline" then st
  else
    let href := lm.href
    let link_text := lm.text
    if "http://".toList.isPrefixOf href ∨ "https://".toList.isPrefixOf href ∨
       "#".toList.isPrefixOf href ∨ "mailto:".toList.isPrefixOf href then st
    else
      let pa := split_anchor href
      let link_path := pa.1
      let anchor : List Char := match pa.2 with
        | some a => if a = [] then [] else '#' :: a
        | none => []
      if link_path = [] then st
      else
        match resolve_relative_path (normalize_path source_file) link_path with
        | none =>
          (st.1, st.2 ++ [⟨source_file, href, "path escapes documentation root"⟩])
        | some resolved =>
          let r1 := remove_md_suffix resolved
          let r2 := if "docs/".toList.isPrefixOf r1 then r1.drop 5 else r1
          let r3 := if r2.getLast? = some '/' then
              (r2.reverse.dropWhile (· = '/')).reverse ++ "/README".toList
            else r2
          match lookupWikiName table r3 with
          | none => (st.1, st.2 ++ [⟨source_file, href, "no mapping found"⟩])
          | some wiki_name =>
            let display_text := if pyStrip link_text = [] then wiki_name
                                else link_text
            let separator : List Char :=
              if is_in_table_row content lm.start then ['\\', '|'] else ['|']
            let new_link := "[[".toList ++ display_text ++ separator ++
              wiki_name ++ anchor ++ "]]".toList
            (spliceAt st.1 lm.start lm.endPos new_link, st.2)

/-- `sync_wiki.convert_links(content, source_file)` against an explicit page
table (the Python reads the module global `WIKI_STRUCTURE`; its tests swap
that global).  Returns the rewritten document together with the
`_unmapped_links` records appended during this call. -/
def convert_links (table : List (String × String)) (content : List Char)
    (source_file : List Char) : List Char × List UnmappedRecord :=
  let skip := find_code_fence_ranges content ++ find_inline_code_ranges content
  let links := extract_links content
  links.reverse.foldl (convertLinkStep table content skip source_file)
    (content, [])


/-!
Part 3: `scripts/check_wiki_links.py` — the reverse Wiki Link Parser
-/

/-- Last index of `c` in `l` (Python `str.rfind`, `none` for `-1`). -/
def rfindIdx : List Char → Char → Option Nat
  | [], _ => none
  | ch :: rest, c =>
    match rfindIdx rest c with
    | some j => some (j + 1)
    | none => if ch = c then some 0 else none

/-- `check_wiki_links._split_wiki_link_on_pipe(inner)`: split on the last
pipe; a `\|` pair counts as an escaped separator whose backslash is excluded
from the display text.  No pipe gives an empty display text. -/
def split_wiki_link_on_pipe (inner : List Char) : List Char × List Char :=
  match rfindIdx inner '|' with
  | none => ([], inner)
  | some pipe_idx =>
    let is_escaped_pipe := 0 < pipe_idx ∧ inner.get? (pipe_idx - 1) = some '\\'
    let display_text := if is_escaped_pipe then inner.take (pipe_idx - 1)
                        else inner.take pipe_idx
    (display_text, inner.drop (pipe_idx + 1))

/-- `check_wiki_links._ParsedWikiLink`. -/
structure ParsedWikiLink where
  display_text : List Char
  page_name : List Char
  anchor : List Char
  line_num : Nat
deriving DecidableEq, Repr

/-- `check_wiki_links._parse_wiki_link(inner, line_num)`: split off the
display text, then split the page part on the first `#` (the anchor keeps its
leading `#`); display text and page name are stripped. -/
def parse_wiki_link (inner : List Char) (line_num : Nat) : ParsedWikiLink :=
  let dp := split_wiki_link_on_pipe inner
  let page_part := dp.2
  if page_part.contains '#' then
    let page_name := page_part.takeWhile (· ≠ '#')
    let anchor := '#' :: page_part.drop (page_name.length + 1)
    ⟨pyStrip dp.1, pyStrip page_name, anchor, line_num⟩
  else
    ⟨pyStrip dp.1, pyStrip page_part, [], line_num⟩

/-- Does the cell contain three consecutive dashes? -/
def hasTripleDash : List Char → Bool
  | '-' :: '-' :: '-' :: _ => true
  | _ :: rest => hasTripleDash rest
  | [] => false

/-- Modelled from the spec: the GFM table-separator classification
`_is_separator_row` that `scripts/test_sync_wiki.py` imports from
`sync-wiki.py` but that is absent from the shipped `sync-wiki.py` revision.
Per the spec, a separator row is composed solely of `|`, `-`, `:` and spaces
and every pipe-delimited cell holds at least three consecutive dashes; the
row must have at least one cell. -/
def is_separator_row (line : List Char) : Bool :=
  let stripped := pyStrip line
  let cells := (stripped.splitOn '|').filter (fun c => pyStrip c ≠ [])
  stripped ≠ [] ∧ stripped.all (fun ch => ch ∈ ['|', '-', ':', ' ']) ∧
    cells ≠ [] ∧ cells.all hasTripleDash

/-- The table-row classification the spec prescribes for the escaping
decision: the stripped line starts with `|` and is not a separator row. -/
def spec_table_row (line : List Char) : Bool :=
  (pyStrip line).head? = some '|' ∧ ¬ is_separator_row line


/-!
Part 4: Theorems
-/

/-- C1.  The claim states that when the cleaned display text equals the page
identifier, `convert_links` renders the short form `[[PageId]]` and never
`[[PageId|PageId]]`.  The shipped `convert_links` has no short-format branch:
on the very input of `test_matching_display_text_uses_short_format` (with the
repository's own `WIKI_STRUCTURE` entry
`best-practices/05-coroutines.md → Coroutines`) it renders the redundant long
form `[[Coroutines|Coroutines]]`, contradicting the claim, the spec and the
repository's own test. -/
theorem convert_links_renders_redundant_long_form :
    convert_links wiki_structure
      "[Coroutines](./05-coroutines.md) - Time-based operations".toList
      "best-practices/README.md".toList =
    ("[[Coroutines|Coroutines]] - Time-based operations".toList, []) := by
  decide

/-- C2.  The claim (and `test_separator_row_requires_three_dashes_in_each_cell`
together with `test_table_row_with_separator_chars_as_content` in
`test_sync_wiki.py`) requires rows such as `| -- | -- |` and the mixed
`| --- | -- |` to be classified as ordinary table rows, since a separator row
needs three consecutive dashes in every cell.  The shipped classification in
`is_in_table_row` treats every line consisting solely of `|`, `-`, `:` and
spaces as a separator, so it returns `false` (not a table row) on exactly the
rows the tests assert to be table rows; position 24 is the start of the
`| -- | - |` row of the test's document.  The spec-modelled `is_separator_row`
shows the intended classification for comparison. -/
theorem is_in_table_row_misclassifies_few_dash_rows :
    is_in_table_row "| A | B |\n| --- | --- |\n| -- | - |".toList 24 = false ∧
    is_in_table_row "| -- | -- |".toList 0 = false ∧
    is_in_table_row "| --- | -- |".toList 0 = false ∧
    is_separator_row "| --- | --- |".toList = true ∧
    is_separator_row "| -- | -- |".toList = false ∧
    is_separator_row "| --- | -- |".toList = false := by
  decide

/-- C4.  The claim states that the display text of a mapped link is the
original link text with Markdown emphasis markers stripped.  The shipped
`convert_links` never strips emphasis (there is no `strip_markdown_formatting`
in the shipped `sync-wiki.py`, although its test file imports one): on the
input of `test_bold_link_text_stripped` the bold markers survive into the
rewritten wiki link, contradicting the claim, the spec and the repository's
own tests. -/
theorem convert_links_keeps_emphasis_markers :
    convert_links wiki_structure
      "[**Coroutines**](./05-coroutines.md)".toList
      "best-practices/README.md".toList =
    ("[[**Coroutines**|Coroutines]]".toList, []) := by
  decide


/-- Helper: a successful `findClosingAux` scan returns an in-bounds index at
or after the cursor, holding the closer character. -/
theorem findClosingAux_some_spec (text : List Char) (opener closer : Char) :
    ∀ (fuel i : Nat) (depth : Int) (r : Nat),
      findClosingAux text opener closer fuel i depth = some r →
      i ≤ r ∧ r < text.length ∧ text.get? r = some closer := by
  intro fuel
  induction fuel with
  | zero => intro i d r h; simp [findClosingAux] at h
  | succ n ih =>
    intro i d r h
    simp only [findClosingAux] at h
    split at h
    case isTrue hlt =>
      split at h
      · have := ih (i + 2) d r h
        exact ⟨by omega, this.2⟩
      · split at h
        · have := ih (i + 1) (d + 1) r h
          exact ⟨by omega, this.2⟩
        · split at h
          case isTrue hcl =>
            split at h
            · cases h
              exact ⟨Nat.le_refl _, hlt, by rw [List.get?_eq_get hlt, hcl]⟩
            · have := ih (i + 1) (d - 1) r h
              exact ⟨by omega, this.2⟩
          case isFalse =>
            have := ih (i + 1) d r h
            exact ⟨by omega, this.2⟩
    case isFalse => cases h

/-- Helper: a successful `find_closing` returns an in-bounds index at or after
`start` holding the closer. -/
theorem find_closing_some_spec {text : List Char} {start : Nat}
    {opener closer : Char} {r : Nat}
    (h : find_closing text start opener closer = some r) :
    start ≤ r ∧ r < text.length ∧ text.get? r = some closer :=
  findClosingAux_some_spec text opener closer _ start 0 r h

/-- C9.  Balanced-delimiter scanner semantics: (i) a backslash at the cursor
makes the scan skip the cursor and the following position atomically, whatever
the escaped character is; (ii) a successful scan returns an index at or after
`start` holding the closer (the index at which the Python depth counter first
returns to zero — returning is the only exit with `some`, and it happens
exactly when `depth` hits zero on the closer); (iii) on the spec's examples a
`\)` inside the destination and a `\]` inside the link text do not close
early, and a text whose depth never returns to zero yields `none`
(Python `-1`). -/
theorem find_closing_escape_and_matching :
    (∀ (text : List Char) (opener closer : Char) (fuel i : Nat) (depth : Int),
        text.get? i = some '\\' →
        findClosingAux text opener closer (fuel + 1) i depth =
          findClosingAux text opener closer fuel (i + 2) depth) ∧
    (∀ (text : List Char) (start : Nat) (opener closer : Char) (r : Nat),
        find_closing text start opener closer = some r →
        start ≤ r ∧ text.get? r = some closer) ∧
    find_closing "[text](url \"a \\) paren\")".toList 6 '(' ')' = some 23 ∧
    find_closing "[a\\]b](x)".toList 0 '[' ']' = some 5 ∧
    find_closing "(((".toList 0 '(' ')' = none := by
  refine ⟨?_, ?_, by decide, by decide, by decide⟩
  · intro text opener closer fuel i depth hbs
    obtain ⟨hlt, hch⟩ := List.get?_eq_some.mp hbs
    simp only [List.get_eq_getElem] at hch
    simp [findClosingAux, dif_pos hlt, hch]
  · intro text start opener closer r h
    have := find_closing_some_spec h
    exact ⟨this.1, this.2.2⟩

/-- C9 witness: the escape law applied at a concrete backslash (`"\\)x"`,
cursor 0), and the matching-closer law applied to the concrete destination
scan of the spec's example. -/
theorem find_closing_escape_and_matching_witness :
    findClosingAux "\\)x".toList '(' ')' 4 0 0 =
      findClosingAux "\\)x".toList '(' ')' 3 2 0 ∧
    (6 ≤ 23 ∧ "[text](url \"a \\) paren\")".toList.get? 23 = some ')') := by
  constructor
  · exact find_closing_escape_and_matching.1 "\\)x".toList '(' ')' 3 0 0 (by decide)
  · exact find_closing_escape_and_matching.2.1 "[text](url \"a \\) paren\")".toList
      6 '(' ')' 23 (by decide)

/-- C10.  Safety and totality of the balanced-delimiter scanner: with no
precondition at all, `find_closing` (a total Lean function) returns `none`
(Python `-1`) or an in-bounds index `start ≤ i < text.length` holding the
closer; a backslash in the final position makes the scan step past the end of
the text and return `none` without any out-of-bounds character access (the
embedding only reads `text.get ⟨i, h⟩` under a proof `h : i < text.length`). -/
theorem find_closing_total_safe :
    (∀ (text : List Char) (start : Nat) (opener closer : Char),
        match find_closing text start opener closer with
        | none => True
        | some i => start ≤ i ∧ i < text.length ∧ text.get? i = some closer) ∧
    find_closing "(a\\".toList 0 '(' ')' = none := by
  refine ⟨?_, by decide⟩
  intro text start opener closer
  cases h : find_closing text start opener closer with
  | none => trivial
  | some i => exact find_closing_some_spec h


/-- Helper: `rfindIdx` misses characters that are not in the list. -/
theorem rfindIdx_eq_none {l : List Char} {c : Char} (h : c ∉ l) :
    rfindIdx l c = none := by
  induction l with
  | nil => rfl
  | cons x xs ih =>
    have hx : x ≠ c := fun e => h (e ▸ List.mem_cons_self x xs)
    have hxs : c ∉ xs := fun m => h (List.mem_cons_of_mem x m)
    simp [rfindIdx, ih hxs, hx]

/-- Helper: the last occurrence in an appended list prefers the suffix. -/
theorem rfindIdx_append (xs ys : List Char) (c : Char) :
    rfindIdx (xs ++ ys) c =
      match rfindIdx ys c with
      | some j => some (xs.length + j)
      | none => rfindIdx xs c := by
  induction xs with
  | nil => cases h : rfindIdx ys c <;> simp [rfindIdx, h]
  | cons x xs ih =>
    rw [List.cons_append]
    show (match rfindIdx (xs ++ ys) c with
          | some j => some (j + 1)
          | none => if x = c then some 0 else none) = _
    rw [ih]
    cases h : rfindIdx ys c with
    | none => simp only [h]; rfl
    | some j =>
      simp only [h]
      exact congrArg some (by simp [List.length_cons]; omega)

/-- Helper: `takeWhile` walks through a prefix every element of which
satisfies the predicate. -/
theorem takeWhile_append_of_all {q : Char → Bool} {xs : List Char}
    (ys : List Char) (h : ∀ x ∈ xs, q x = true) :
    (xs ++ ys).takeWhile q = xs ++ ys.takeWhile q := by
  induction xs with
  | nil => simp
  | cons x xs ih =>
    have hx := h x (List.mem_cons_self x xs)
    simp [List.takeWhile_cons, hx,
      ih (fun y hy => h y (List.mem_cons_of_mem x hy))]

/-- Helper: splitting when no pipe occurs at all gives no display text. -/
theorem split_wiki_no_pipe {pa : List Char} (hpa : '|' ∉ pa) :
    split_wiki_link_on_pipe pa = ([], pa) := by
  simp [split_wiki_link_on_pipe, rfindIdx_eq_none hpa]

/-- Helper: splitting `display ++ "|" ++ pagePart` (no pipe in the page part,
display not ending in a backslash) cuts at the separator pipe. -/
theorem split_wiki_long_unescaped {d pa : List Char} (hpa : '|' ∉ pa)
    (hdl : d.getLast? ≠ some '\\') :
    split_wiki_link_on_pipe (d ++ '|' :: pa) = (d, pa) := by
  have hfind : rfindIdx (d ++ '|' :: pa) '|' = some d.length := by
    rw [rfindIdx_append]
    simp [rfindIdx, rfindIdx_eq_none hpa]
  have hesc : ¬ (0 < d.length ∧
      (d ++ '|' :: pa).get? (d.length - 1) = some '\\') := by
    rintro ⟨hpos, hget⟩
    rw [List.get?_append (by omega)] at hget
    rw [List.getLast?_eq_get?] at hdl
    exact hdl hget
  have hdrop := @List.drop_append Char d ('|' :: pa) 1
  simp only [split_wiki_link_on_pipe, hfind, if_neg hesc]
  rw [List.take_left, hdrop]
  simp

/-- Helper: splitting `display ++ "\\|" ++ pagePart` consumes the backslash
together with the pipe, excluding it from the display text. -/
theorem split_wiki_long_escaped {d pa : List Char} (hpa : '|' ∉ pa) :
    split_wiki_link_on_pipe (d ++ '\\' :: '|' :: pa) = (d, pa) := by
  have hfind : rfindIdx (d ++ '\\' :: '|' :: pa) '|' = some (d.length + 1) := by
    rw [rfindIdx_append]
    simp [rfindIdx, rfindIdx_eq_none hpa]
  have hget : (d ++ '\\' :: '|' :: pa).get? (d.length + 1 - 1) = some '\\' := by
    rw [Nat.add_sub_cancel, List.get?_append_right (Nat.le_refl d.length)]
    simp
  have hesc : 0 < d.length + 1 ∧
      (d ++ '\\' :: '|' :: pa).get? (d.length + 1 - 1) = some '\\' :=
    ⟨by omega, hget⟩
  have hdrop := @List.drop_append Char d ('\\' :: '|' :: pa) 2
  have htake : (d ++ '\\' :: '|' :: pa).take (d.length + 1 - 1) = d := by
    rw [Nat.add_sub_cancel, List.take_left]
  simp only [split_wiki_link_on_pipe, hfind, if_pos hesc, htake]
  have : d.length + 1 + 1 = d.length + 2 := by omega
  rw [this, hdrop]
  simp

/-- Helper: finishing the parse once the pipe split is known, with the page
part shaped `pageId ++ anchor`. -/
theorem parse_wiki_link_of_split {inner d p a : List Char} {n : Nat}
    (hs : split_wiki_link_on_pipe inner = (d, p ++ a))
    (hp2 : '#' ∉ p) (ha : a = [] ∨ ∃ t, a = '#' :: t) (hp3 : pyStrip p = p) :
    parse_wiki_link inner n = ⟨pyStrip d, p, a, n⟩ := by
  rcases ha with rfl | ⟨t, rfl⟩
  · simp [parse_wiki_link, hs, hp2, hp3]
  · have htw : (p ++ '#' :: t).takeWhile (fun x => !decide (x = '#')) = p := by
      rw [takeWhile_append_of_all ('#' :: t) (fun x hx => by
        have hne : x ≠ '#' := fun e => hp2 (by rw [e] at hx; exact hx)
        simp [hne])]
      simp [List.takeWhile_cons]
    have hdrop : (p ++ '#' :: t).drop (p.length + 1) = t := by
      simpa using @List.drop_append Char p ('#' :: t) 1
    simp [parse_wiki_link, hs, htw, hdrop, hp3]

/-- C6.  Wiki-link round-trip: the reverse parser recovers `(displayText,
pageId, anchor)` from the inner content of every wiki link shaped like the
rewriter's output, in all four of {short, long} × {escaped, unescaped} forms:
the split is taken on the last pipe, the backslash of an escaped pipe is
consumed and excluded from the display text, the page part is split on the
first `#`, and the anchor keeps its leading `#`.  The hypotheses describe the
rewriter's output shape: page id and anchor contain no pipe, the page id no
`#`, the anchor is empty or starts with `#`, display text and page id carry no
surrounding whitespace (the parser strips both), and the display text does not
end in a backslash (else it would read as an escape).  The spec's two concrete
examples close the statement. -/
theorem parse_wiki_link_round_trip
    (d p a : List Char) (n : Nat)
    (hp1 : '|' ∉ p) (hp2 : '#' ∉ p) (ha2 : '|' ∉ a)
    (ha : a = [] ∨ ∃ t, a = '#' :: t)
    (hd : pyStrip d = d) (hp3 : pyStrip p = p)
    (hdl : d.getLast? ≠ some '\\') :
    parse_wiki_link (p ++ a) n = ⟨[], p, a, n⟩ ∧
    parse_wiki_link (d ++ '|' :: (p ++ a)) n = ⟨d, p, a, n⟩ ∧
    parse_wiki_link (d ++ '\\' :: '|' :: (p ++ a)) n = ⟨d, p, a, n⟩ ∧
    parse_wiki_link "PageId".toList 1 = ⟨[], "PageId".toList, [], 1⟩ ∧
    parse_wiki_link "Display\\|PageId#anchor".toList 1 =
      ⟨"Display".toList, "PageId".toList, "#anchor".toList, 1⟩ := by
  have hpa : '|' ∉ p ++ a := by
    intro m
    rcases List.mem_append.mp m with m | m
    · exact hp1 m
    · exact ha2 m
  refine ⟨?_, ?_, ?_, by decide, by decide⟩
  · exact parse_wiki_link_of_split (n := n) (split_wiki_no_pipe hpa) hp2 ha hp3
  · have h2 := parse_wiki_link_of_split (n := n)
      (@split_wiki_long_unescaped d (p ++ a) hpa hdl) hp2 ha hp3
    rw [hd] at h2
    exact h2
  · have h3 := parse_wiki_link_of_split (n := n)
      (@split_wiki_long_escaped d (p ++ a) hpa) hp2 ha hp3
    rw [hd] at h3
    exact h3

/-- C6 witness: the round-trip applied at the spec's escaped long-form
example. -/
theorem parse_wiki_link_round_trip_witness :
    parse_wiki_link ("Display".toList ++ '\\' :: '|' ::
      ("PageId".toList ++ "#anchor".toList)) 1 =
    ⟨"Display".toList, "PageId".toList, "#anchor".toList, 1⟩ :=
  (parse_wiki_link_round_trip "Display".toList "PageId".toList
    "#anchor".toList 1 (by decide) (by decide) (by decide)
    (Or.inr ⟨"anchor".toList, rfl⟩) (by decide) (by decide) (by decide)).2.2.1

/-- Helper: `skipWs` never moves the cursor backwards. -/
theorem skipWs_ge (text : List Char) :
    ∀ (fuel j : Nat), j ≤ skipWs text fuel j := by
  intro fuel
  induction fuel with
  | zero => intro j; exact Nat.le_refl j
  | succ n ih =>
    intro j
    simp only [skipWs]
    split
    · split
      · exact Nat.le_trans (Nat.le_succ j) (ih (j + 1))
      · exact Nat.le_refl j
    · exact Nat.le_refl j

/-- Helper: every link produced by the inline scanning loop starts at or after
the cursor and has a nonempty span, and the produced links are chained: each
ends at or before the next one starts. -/
theorem findInlineLinksAux_chain (text : List Char) :
    ∀ (fuel idx : Nat),
      (∀ il ∈ findInlineLinksAux text fuel idx,
        idx ≤ il.start ∧ il.start < il.endPos) ∧
      List.Pairwise (fun a b => a.endPos ≤ b.start)
        (findInlineLinksAux text fuel idx) := by
  intro fuel
  induction fuel with
  | zero =>
    intro idx
    refine ⟨fun il h => absurd h ?_, by simp [findInlineLinksAux]⟩
    simp [findInlineLinksAux]
  | succ n ih =>
    intro idx
    have step : ∀ k, idx ≤ k →
        (∀ il ∈ findInlineLinksAux text n k,
          idx ≤ il.start ∧ il.start < il.endPos) ∧
        List.Pairwise (fun a b => a.endPos ≤ b.start)
          (findInlineLinksAux text n k) := by
      intro k hk
      exact ⟨fun il h => ⟨Nat.le_trans hk (((ih k).1 il h).1),
        ((ih k).1 il h).2⟩, (ih k).2⟩
    simp only [findInlineLinksAux]
    split
    case isFalse => simp
    case isTrue h =>
      split
      case isTrue => exact step (idx + 1) (by omega)
      case isFalse =>
        split
        case isTrue => exact step (idx + 1) (by omega)
        case isFalse =>
          split
          case h_1 => exact step (idx + 1) (by omega)
          case h_2 close hclose =>
            have hc := find_closing_some_spec hclose
            split
            case isTrue hj =>
              split
              case isTrue => exact step (close + 1) (by omega)
              case isFalse =>
                split
                case h_1 => exact step (close + 1) (by omega)
                case h_2 dest_end hde =>
                  have hdd := find_closing_some_spec hde
                  have hsw := skipWs_ge text (text.length + 1) (close + 1)
                  split
                  case isTrue => exact step (dest_end + 1) (by omega)
                  case isFalse =>
                    obtain ⟨ihb, ihp⟩ := ih (dest_end + 1)
                    refine ⟨?_, List.pairwise_cons.mpr ⟨?_, ihp⟩⟩
                    · intro il hil
                      rcases List.mem_cons.mp hil with rfl | hmem
                      · exact ⟨Nat.le_refl idx, by simp; omega⟩
                      · have := ihb il hmem
                        exact ⟨by omega, this.2⟩
                    · intro il hmem
                      have := ihb il hmem
                      simp
                      omega
            case isFalse => exact step (close + 1) (by omega)


/-- Symmetric non-overlap of two matches: one ends before the other starts. -/
def Rsym (a b : LinkMatch) : Prop :=
  a.endPos ≤ b.start ∨ b.endPos ≤ a.start

theorem Rsym.symm' {a b : LinkMatch} (h : Rsym a b) : Rsym b a := h.symm

/-- Helper: a candidate surviving the `overlaps_any` test is `Rsym`-apart from
every match whose span is recorded in `used`. -/
theorem rsym_of_not_overlaps {s e : Nat} {ms : List LinkMatch}
    (hov : overlaps_any s e (ms.map (fun m => (m.start, m.endPos))) = false)
    {m : LinkMatch} (hm : m ∈ ms) {new : LinkMatch}
    (hns : new.start = s) (hne : new.endPos ≤ e) : Rsym m new := by
  have := List.any_eq_false.mp hov (m.start, m.endPos)
    (List.mem_map_of_mem _ hm)
  simp only [decide_eq_true_eq] at this
  rcases Decidable.not_and_iff_or_not.mp this with h | h
  · exact Or.inl (by omega)
  · exact Or.inr (by omega)

/-- Helper: the autolink pass keeps the span list in lockstep with the match
list, preserves pairwise non-overlap, and only appends `kind = "autolink"`
entries after the existing matches. -/
theorem processAutolinks_spec (skip : List (Nat × Nat)) (offsets : List Nat)
    (text : List Char) :
    ∀ (cands : List (Nat × Nat × List Char)) (ms : List LinkMatch),
      List.Pairwise Rsym ms →
      (processAutolinks skip offsets text cands ms
          (ms.map (fun m => (m.start, m.endPos)))).2 =
        (processAutolinks skip offsets text cands ms
          (ms.map (fun m => (m.start, m.endPos)))).1.map
            (fun m => (m.start, m.endPos)) ∧
      List.Pairwise Rsym (processAutolinks skip offsets text cands ms
        (ms.map (fun m => (m.start, m.endPos)))).1 ∧
      ∃ extras,
        (processAutolinks skip offsets text cands ms
          (ms.map (fun m => (m.start, m.endPos)))).1 = ms ++ extras ∧
        ∀ m ∈ extras, m.kind = "autolink" := by
  intro cands
  induction cands with
  | nil =>
    intro ms hp
    exact ⟨rfl, hp, [], by simp [processAutolinks], by simp⟩
  | cons c rest ih =>
    obtain ⟨s, e, href⟩ := c
    intro ms hp
    simp only [processAutolinks]
    by_cases hc : in_ranges s skip = true ∨
        overlaps_any s e (ms.map (fun m => (m.start, m.endPos))) = true
    · rw [if_pos hc]
      exact ih ms hp
    · rw [if_neg hc]
      push_neg at hc
      obtain ⟨_, hov⟩ := hc
      replace hov : overlaps_any s e
          (ms.map (fun m => (m.start, m.endPos))) = false :=
        Bool.eq_false_iff.mpr hov
      set m : LinkMatch :=
        { kind := "autolink", start := s, endPos := e,
          text := href, href := href,
          line := (index_to_line_column offsets s).1,
          column := (index_to_line_column offsets s).2,
          segment := slice text s e } with hmdef
      have hp' : List.Pairwise Rsym (ms ++ [m]) := by
        refine List.pairwise_append.mpr ⟨hp, List.pairwise_singleton _ _, ?_⟩
        intro a ha b hb
        rw [List.mem_singleton] at hb
        subst hb
        exact rsym_of_not_overlaps hov ha rfl (Nat.le_refl e)
      have hused : (ms.map (fun m => (m.start, m.endPos))) ++ [(s, e)] =
          (ms ++ [m]).map (fun m => (m.start, m.endPos)) := by
        simp [hmdef]
      rw [hused]
      obtain ⟨h1, h2, extras, h3, h4⟩ := ih (ms ++ [m]) hp'
      refine ⟨h1, h2, [m] ++ extras, by simpa using h3, ?_⟩
      intro x hx
      rcases List.mem_append.mp hx with hx | hx
      · rw [List.mem_singleton] at hx
        subst hx
        rfl
      · exact h4 x hx

/-- Helper: the bare-URL pass enjoys the same invariants as the autolink
pass; the stored span end may only shrink under the trailing-punctuation
strip, which keeps non-overlap. -/
theorem processBares_spec (skip : List (Nat × Nat)) (offsets : List Nat)
    (text : List Char) :
    ∀ (cands : List (Nat × Nat)) (ms : List LinkMatch),
      List.Pairwise Rsym ms →
      (processBares skip offsets text cands ms
          (ms.map (fun m => (m.start, m.endPos)))).2 =
        (processBares skip offsets text cands ms
          (ms.map (fun m => (m.start, m.endPos)))).1.map
            (fun m => (m.start, m.endPos)) ∧
      List.Pairwise Rsym (processBares skip offsets text cands ms
        (ms.map (fun m => (m.start, m.endPos)))).1 ∧
      ∃ extras,
        (processBares skip offsets text cands ms
          (ms.map (fun m => (m.start, m.endPos)))).1 = ms ++ extras ∧
        ∀ m ∈ extras, m.kind = "bare" := by
  intro cands
  induction cands with
  | nil =>
    intro ms hp
    exact ⟨rfl, hp, [], by simp [processBares], by simp⟩
  | cons c rest ih =>
    obtain ⟨s, e⟩ := c
    intro ms hp
    simp only [processBares]
    by_cases hc : in_ranges s skip = true ∨
        overlaps_any s e (ms.map (fun m => (m.start, m.endPos))) = true
    · rw [if_pos hc]
      exact ih ms hp
    · rw [if_neg hc]
      push_neg at hc
      obtain ⟨_, hov⟩ := hc
      replace hov : overlaps_any s e
          (ms.map (fun m => (m.start, m.endPos))) = false :=
        Bool.eq_false_iff.mpr hov
      by_cases hh : (stripTrailingPunct (slice text s e)).1 = []
      · rw [if_pos hh]
        exact ih ms hp
      · rw [if_neg hh]
        set m : LinkMatch :=
          { kind := "bare", start := s,
            endPos := e - (stripTrailingPunct (slice text s e)).2.length,
            text := (stripTrailingPunct (slice text s e)).1,
            href := (stripTrailingPunct (slice text s e)).1,
            line := (index_to_line_column offsets s).1,
            column := (index_to_line_column offsets s).2,
            segment := slice text s
              (e - (stripTrailingPunct (slice text s e)).2.length),
            separator := (stripTrailingPunct (slice text s e)).2 } with hmdef
        have hp' : List.Pairwise Rsym (ms ++ [m]) := by
          refine List.pairwise_append.mpr ⟨hp, List.pairwise_singleton _ _, ?_⟩
          intro a ha b hb
          rw [List.mem_singleton] at hb
          subst hb
          exact rsym_of_not_overlaps hov ha rfl (by simp [hmdef])
        have hused : (ms.map (fun m => (m.start, m.endPos))) ++
            [(s, e - (stripTrailingPunct (slice text s e)).2.length)] =
            (ms ++ [m]).map (fun m => (m.start, m.endPos)) := by
          simp [hmdef]
        rw [hused]
        obtain ⟨h1, h2, extras, h3, h4⟩ := ih (ms ++ [m]) hp'
        refine ⟨h1, h2, [m] ++ extras, by simpa using h3, ?_⟩
        intro x hx
        rcases List.mem_append.mp hx with hx | hx
        · rw [List.mem_singleton] at hx
          subst hx
          rfl
        · exact h4 x hx


/-- Helper: `extract_links` written without the `let` chain. -/
theorem extract_links_eq (text : List Char) :
    extract_links text =
      List.insertionSort lmLE
        (processBares (skip_ranges_of text) (build_line_offsets text) text
          (bare_scan text)
          (processAutolinks (skip_ranges_of text) (build_line_offsets text)
            text (autolink_scan text) (inlineMatchesOf text)
            ((inlineMatchesOf text).map (fun m => (m.start, m.endPos)))).1
          (processAutolinks (skip_ranges_of text) (build_line_offsets text)
            text (autolink_scan text) (inlineMatchesOf text)
            ((inlineMatchesOf text).map (fun m => (m.start, m.endPos)))).2).1 :=
  rfl

/-- Helper: the inline pass is pairwise non-overlapping. -/
theorem inlineMatchesOf_pairwise (text : List Char) :
    List.Pairwise Rsym (inlineMatchesOf text) := by
  apply List.pairwise_map.mpr
  have hchain := (findInlineLinksAux_chain text (text.length + 1) 0).2
  exact (hchain.filter _).imp (fun h => Or.inl h)

/-- Helper: the pre-sort match list decomposes as inline matches, then
autolink entries, then bare entries, and is pairwise non-overlapping. -/
theorem combined_matches_spec (text : List Char) :
    List.Pairwise Rsym
      (processBares (skip_ranges_of text) (build_line_offsets text) text
        (bare_scan text)
        (processAutolinks (skip_ranges_of text) (build_line_offsets text)
          text (autolink_scan text) (inlineMatchesOf text)
          ((inlineMatchesOf text).map (fun m => (m.start, m.endPos)))).1
        (processAutolinks (skip_ranges_of text) (build_line_offsets text)
          text (autolink_scan text) (inlineMatchesOf text)
          ((inlineMatchesOf text).map (fun m => (m.start, m.endPos)))).2).1 ∧
    ∃ ea eb,
      (processBares (skip_ranges_of text) (build_line_offsets text) text
        (bare_scan text)
        (processAutolinks (skip_ranges_of text) (build_line_offsets text)
          text (autolink_scan text) (inlineMatchesOf text)
          ((inlineMatchesOf text).map (fun m => (m.start, m.endPos)))).1
        (processAutolinks (skip_ranges_of text) (build_line_offsets text)
          text (autolink_scan text) (inlineMatchesOf text)
          ((inlineMatchesOf text).map (fun m => (m.start, m.endPos)))).2).1 =
        (inlineMatchesOf text ++ ea) ++ eb ∧
      (∀ m ∈ ea, m.kind = "autolink") ∧ (∀ m ∈ eb, m.kind = "bare") := by
  obtain ⟨ha1, ha2, ea, hea, heak⟩ :=
    processAutolinks_spec (skip_ranges_of text) (build_line_offsets text)
      text (autolink_scan text) (inlineMatchesOf text)
      (inlineMatchesOf_pairwise text)
  rw [ha1]
  obtain ⟨hb1, hb2, eb, heb, hebk⟩ :=
    processBares_spec (skip_ranges_of text) (build_line_offsets text) text
      (bare_scan text) _ ha2
  exact ⟨hb2, ea, eb, by rw [heb, hea], heak, hebk⟩


/-- C5.  Link Scanner output invariant: for every document the list returned
by `extract_links` is sorted ascending by `start`, and no two entries have
overlapping half-open `[start, end)` spans — inline, autolink and bare
occurrences are pairwise disjoint (each accepted autolink/bare candidate is
checked against every span already claimed, and inline links are chained by
construction). -/
theorem extract_links_sorted_and_disjoint (text : List Char) :
    List.Sorted lmLE (extract_links text) ∧
    List.Pairwise (fun a b => ¬ (a.start < b.endPos ∧ b.start < a.endPos))
      (extract_links text) := by
  constructor
  · rw [extract_links_eq]
    exact List.sorted_insertionSort lmLE _
  · rw [extract_links_eq]
    have hperm := List.perm_insertionSort lmLE
      (processBares (skip_ranges_of text) (build_line_offsets text) text
        (bare_scan text)
        (processAutolinks (skip_ranges_of text) (build_line_offsets text)
          text (autolink_scan text) (inlineMatchesOf text)
          ((inlineMatchesOf text).map (fun m => (m.start, m.endPos)))).1
        (processAutolinks (skip_ranges_of text) (build_line_offsets text)
          text (autolink_scan text) (inlineMatchesOf text)
          ((inlineMatchesOf text).map (fun m => (m.start, m.endPos)))).2).1
    have hpw := (combined_matches_spec text).1
    have hsym : ∀ {x y : LinkMatch}, Rsym x y → Rsym y x :=
      fun h => h.symm
    have := (List.Perm.pairwise_iff hsym hperm).mpr hpw
    exact this.imp (fun h => by rcases h with h | h <;> omega)

/-- Helper: converting an inline link to a `LinkMatch` is injective (every
`InlineLink` field is copied into the match). -/
theorem inlineToMatch_inj {offsets : List Nat} {a b : InlineLink}
    (h : inlineToMatch offsets a = inlineToMatch offsets b) : a = b := by
  cases a
  cases b
  simp only [inlineToMatch, LinkMatch.mk.injEq] at h
  simp only [InlineLink.mk.injEq]
  obtain ⟨-, h1, h2, h3, h4, -, -, h7, h8, h9⟩ := h
  exact ⟨h1, h2, h3, h4, h8, h9, h7⟩

/-- C7.  Exclusion correctness: an inline link candidate found by the scanner
is emitted by `extract_links` exactly when its start offset lies outside every
exclusion range (fenced code, inline code, HTML tag) — only the start offset
is tested.  In particular the spec's example, a link whose whole span lies
inside a fenced code block, produces no occurrence at all. -/
theorem extract_links_inline_iff (text : List Char) (il : InlineLink)
    (h : il ∈ find_inline_links text) :
    (inlineToMatch (build_line_offsets text) il ∈ extract_links text ↔
      in_ranges il.start (skip_ranges_of text) = false) ∧
    extract_links "```\n[x](http://example.com)\n```\n".toList = [] := by
  refine ⟨?_, by decide⟩
  rw [extract_links_eq, List.mem_insertionSort]
  obtain ⟨_, ea, eb, hdec, heak, hebk⟩ := combined_matches_spec text
  rw [hdec]
  constructor
  · intro hm
    rcases List.mem_append.mp hm with hm | hm
    · rcases List.mem_append.mp hm with hm | hm
      · obtain ⟨il2, hil2, heq⟩ := List.mem_map.mp hm
        obtain rfl := inlineToMatch_inj heq
        have := (List.mem_filter.mp hil2).2
        simp only [decide_eq_true_eq] at this
        exact Bool.eq_false_iff.mpr this
      · have := heak _ hm
        simp [inlineToMatch] at this
    · have := hebk _ hm
      simp [inlineToMatch] at this
  · intro hin
    have hfil : il ∈ (find_inline_links text).filter
        (fun il => ¬ in_ranges il.start (skip_ranges_of text)) :=
      List.mem_filter.mpr ⟨h, by simp [hin]⟩
    exact List.mem_append.mpr (Or.inl (List.mem_append.mpr (Or.inl
      (List.mem_map_of_mem _ hfil))))

/-- C7 witness: the iff applied to the concrete inline link of
`"[a](b.md)"`, which lies in no exclusion range and is therefore emitted. -/
theorem extract_links_inline_iff_witness :
    inlineToMatch (build_line_offsets "[a](b.md)".toList)
      ⟨0, 9, "a".toList, "b.md".toList, [], "b.md".toList,
        "[a](b.md)".toList⟩ ∈ extract_links "[a](b.md)".toList :=
  ((extract_links_inline_iff "[a](b.md)".toList
    ⟨0, 9, "a".toList, "b.md".toList, [], "b.md".toList,
      "[a](b.md)".toList⟩ (by decide)).1).mpr (by decide)


/-- Helper: `findIdx?` never returns an index below its accumulator. -/
theorem findIdx?_ge {q : Char → Bool} :
    ∀ (l : List Char) (i j : Nat), List.findIdx? q l i = some j → i ≤ j := by
  intro l
  induction l with
  | nil => intro i j h; simp [List.findIdx?_nil] at h
  | cons x xs ih =>
    intro i j h
    rw [List.findIdx?_cons] at h
    by_cases hx : q x = true
    · rw [if_pos hx] at h
      cases h
      exact Nat.le_refl i
    · rw [if_neg hx] at h
      exact Nat.le_trans (Nat.le_succ i) (ih (i + 1) j h)

/-- Helper: an element that fails the predicate survives `dropWhile`. -/
theorem mem_dropWhile_of_mem {q : Char → Bool} {a : Char} :
    ∀ {l : List Char}, a ∈ l → q a = false → a ∈ l.dropWhile q := by
  intro l
  induction l with
  | nil => intro h; exact absurd h (List.not_mem_nil a)
  | cons x xs ih =>
    intro h ha
    by_cases hx : q x = true
    · rw [List.dropWhile_cons_of_pos hx]
      rcases List.mem_cons.mp h with rfl | h
      · rw [ha] at hx; cases hx
      · exact ih h ha
    · rw [List.dropWhile_cons_of_neg hx]
      exact h

/-- Helper: a non-whitespace member of a list survives `pyStrip`. -/
theorem mem_pyStrip_of_mem {a : Char} {l : List Char}
    (h : a ∈ l) (ha : isPySpace a = false) : a ∈ pyStrip l := by
  unfold pyStrip
  rw [List.mem_reverse]
  apply mem_dropWhile_of_mem _ ha
  rw [List.mem_reverse]
  exact mem_dropWhile_of_mem h ha

/-- Helper: the character at `position` (not a newline) belongs to the line
containing `position`. -/
theorem mem_lineAt {content : List Char} {p : Nat} {ch : Char}
    (h : content.get? p = some ch) (hch : ch ≠ '\n') :
    ch ∈ lineAt content p := by
  obtain ⟨hp, hget⟩ := List.get?_eq_some.mp h
  have hls : (lineBoundsAt content p).1 ≤ p := by
    simp only [lineBoundsAt]
    cases hidx : (slice content 0 p).reverse.findIdx? (· = '\n') with
    | none => simp
    | some k =>
      rcases p with _ | q
      · simp [slice] at hidx
      · simp
        all_goals omega
  have hle : p < (lineBoundsAt content p).2 := by
    simp only [lineBoundsAt]
    cases hidx : (content.drop p).findIdx? (· = '\n') with
    | none => simpa using hp
    | some k =>
      rw [List.drop_eq_get_cons hp, hget, List.findIdx?_cons] at hidx
      rw [if_neg (by simpa using hch)] at hidx
      have := findIdx?_ge _ 1 k hidx
      simp
      all_goals omega
  have hsl : (lineAt content p).get? (p - (lineBoundsAt content p).1) =
      some ch := by
    unfold lineAt slice
    rw [List.get?_take (by omega), List.get?_drop]
    have : (lineBoundsAt content p).1 + (p - (lineBoundsAt content p).1) = p := by
      omega
    rw [this, h]
  exact List.get?_mem hsl

/-- Helper: at any position holding a `[` — in particular at the start of
every inline link occurrence — the shipped `is_in_table_row` agrees with the
spec's table-row classification (stripped line starts with `|` and is not a
separator row): the `[` on the line rules out a separator row under either
definition, so both predicates reduce to the leading-pipe test. -/
theorem is_in_table_row_eq_spec {content : List Char} {p : Nat}
    (h : content.get? p = some '[') :
    is_in_table_row content p = spec_table_row (lineAt content p) := by
  have hmem : '[' ∈ lineAt content p := mem_lineAt h (by decide)
  have hmem' : '[' ∈ pyStrip (lineAt content p) :=
    mem_pyStrip_of_mem hmem (by decide)
  have hall : (pyStrip (lineAt content p)).all
      (fun ch => ch ∈ ['|', '-', ':', ' ']) = false :=
    List.all_eq_false.mpr ⟨'[', hmem', by decide⟩
  have hsep : is_separator_row (lineAt content p) = false := by
    simp only [is_separator_row]
    apply decide_eq_false
    rintro ⟨-, hB, -⟩
    rw [hall] at hB
    cases hB
  cases hcase : pyStrip (lineAt content p) with
  | nil => rw [hcase] at hmem'; exact absurd hmem' (List.not_mem_nil _)
  | cons c cs =>
    rw [hcase] at hall
    by_cases hc : c = '|'
    · subst hc
      simp only [is_in_table_row, spec_table_row, hcase, hsep, hall]
      simp
    · simp only [is_in_table_row, spec_table_row, hcase, hsep, hall]
      simp [hc]


/-- C3.  Table-aware pipe escaping.  First conjunct: at every inline-link
start offset (which holds a `[`), the rewriter's table-row test agrees with
the claim's definition — the trimmed line starts with `|` and is not a
separator row.  Second conjunct: for every mapped inline link, `convertLinkStep`
renders the long form with separator `\|` exactly when that condition holds at
the link's start offset, and `|` otherwise.  Third conjunct: the spec's
end-to-end example — the same link escaped inside a table row and unescaped
outside it, in one document. -/
theorem convert_links_table_pipe_escaping :
    (∀ (content : List Char) (p : Nat), content.get? p = some '[' →
        (is_in_table_row content p = true ↔
          ((pyStrip (lineAt content p)).head? = some '|' ∧
            ¬ is_separator_row (lineAt content p) = true))) ∧
    (∀ (table : List (String × String)) (skip : List (Nat × Nat))
        (content source : List Char) (st : List Char × List UnmappedRecord)
        (lm : LinkMatch) (r w : List Char),
        lm.kind = "inline" →
        in_ranges lm.start skip = false →
        "http://".toList.isPrefixOf lm.href = false →
        "https://".toList.isPrefixOf lm.href = false →
        "#".toList.isPrefixOf lm.href = false →
        "mailto:".toList.isPrefixOf lm.href = false →
        (split_anchor lm.href).1 ≠ [] →
        resolve_relative_path (normalize_path source)
          (split_anchor lm.href).1 = some r →
        lookupWikiName table
          (let r1 := remove_md_suffix r
           let r2 := if "docs/".toList.isPrefixOf r1 then r1.drop 5 else r1
           if r2.getLast? = some '/' then
             (r2.reverse.dropWhile (· = '/')).reverse ++ "/README".toList
           else r2) = some w →
        content.get? lm.start = some '[' →
        convertLinkStep table content skip source st lm =
          (spliceAt st.1 lm.start lm.endPos
            ("[[".toList ++ (if pyStrip lm.text = [] then w else lm.text) ++
             (if spec_table_row (lineAt content lm.start) then ['\\', '|']
              else ['|']) ++
             w ++
             (match (split_anchor lm.href).2 with
              | some a => if a = [] then [] else '#' :: a
              | none => []) ++ "]]".toList), st.2)) ∧
    convert_links [("tool.md", "Tool-Page")]
      "| [Tool](./docs/tool.md) | Description |\n| --- | --- |\n\nSee [Tool](./docs/tool.md) for info.\n".toList
      "README.md".toList =
      ("| [[Tool\\|Tool-Page]] | Description |\n| --- | --- |\n\nSee [[Tool|Tool-Page]] for info.\n".toList,
       []) := by
  refine ⟨?_, ?_, by decide⟩
  · intro content p h
    rw [is_in_table_row_eq_spec h]
    simp only [spec_table_row]
    constructor
    · intro hb
      exact of_decide_eq_true hb
    · intro hb
      exact decide_eq_true hb
  · intro table skip content source st lm r w h1 h2 h3 h4 h5 h6 h7 h8 hkey h0
    simp only [convertLinkStep, h1, h2, h3, h4, h5, h6, h8, hkey,
      is_in_table_row_eq_spec h0]
    simp [h7, spec_table_row]

/-- C3 witness: the rendering law applied to the concrete table-row link of
the spec's example document (start offset 2, inside the first table row), and
the classification law applied at the same offset. -/
theorem convert_links_table_pipe_escaping_witness :
    convertLinkStep [("tool.md", "Tool-Page")]
      "| [Tool](./docs/tool.md) | Description |\n| --- | --- |\n\nSee [Tool](./docs/tool.md) for info.\n".toList
      [] "README.md".toList
      ("| [Tool](./docs/tool.md) | Description |\n| --- | --- |\n\nSee [Tool](./docs/tool.md) for info.\n".toList, [])
      ⟨"inline", 2, 24, "Tool".toList, "./docs/tool.md".toList, 1, 3,
        "[Tool](./docs/tool.md)".toList, [], "./docs/tool.md".toList⟩ =
      (spliceAt
        "| [Tool](./docs/tool.md) | Description |\n| --- | --- |\n\nSee [Tool](./docs/tool.md) for info.\n".toList
        2 24
        ("[[".toList ++
          (if pyStrip "Tool".toList = [] then "Tool-Page".toList
           else "Tool".toList) ++
          (if spec_table_row (lineAt
              "| [Tool](./docs/tool.md) | Description |\n| --- | --- |\n\nSee [Tool](./docs/tool.md) for info.\n".toList
              2) then ['\\', '|'] else ['|']) ++
          "Tool-Page".toList ++
          (match (split_anchor "./docs/tool.md".toList).2 with
           | some a => if a = [] then [] else '#' :: a
           | none => []) ++ "]]".toList), []) :=
  convert_links_table_pipe_escaping.2.1 [("tool.md", "Tool-Page")] []
    _ "README.md".toList _ _ "docs/tool.md".toList "Tool-Page".toList
    rfl (by decide) (by decide) (by decide) (by decide) (by decide)
    (by decide) (by decide) (by decide) (by decide)

/-- C8.  Root-escape handling: whenever the POSIX-segment-wise resolution of a
link's path against the source file's directory meets a `..` with nothing left
to pop, `resolve_relative_path` answers `none` and the rewriting step appends
an unmapped-link record with reason "path escapes documentation root", leaving
the document text unchanged (the embedding is a total function — no exception
is possible — and no page mapping is applied).  The concrete conjuncts run the
spec's example: `../../secret.md` from the file `a/b.md`, two levels deep. -/
theorem convert_links_root_escape :
    (∀ (table : List (String × String)) (skip : List (Nat × Nat))
        (content source : List Char) (st : List Char × List UnmappedRecord)
        (lm : LinkMatch),
        lm.kind = "inline" →
        in_ranges lm.start skip = false →
        "http://".toList.isPrefixOf lm.href = false →
        "https://".toList.isPrefixOf lm.href = false →
        "#".toList.isPrefixOf lm.href = false →
        "mailto:".toList.isPrefixOf lm.href = false →
        (split_anchor lm.href).1 ≠ [] →
        resolve_relative_path (normalize_path source)
          (split_anchor lm.href).1 = none →
        convertLinkStep table content skip source st lm =
          (st.1, st.2 ++
            [⟨source, lm.href, "path escapes documentation root"⟩])) ∧
    resolve_relative_path "a/b.md".toList "../../secret.md".toList = none ∧
    convert_links wiki_structure
      "See [secret](../../secret.md) now.".toList "a/b.md".toList =
      ("See [secret](../../secret.md) now.".toList,
       [⟨"a/b.md".toList, "../../secret.md".toList,
         "path escapes documentation root"⟩]) := by
  refine ⟨?_, by decide, by decide⟩
  intro table skip content source st lm h1 h2 h3 h4 h5 h6 h7 h8
  simp only [convertLinkStep, h1, h2, h3, h4, h5, h6, h8]
  simp [h7]

/-- C8 witness: the step law applied to the concrete root-escaping link of the
spec's example. -/
theorem convert_links_root_escape_witness :
    convertLinkStep wiki_structure
      "See [secret](../../secret.md) now.".toList [] "a/b.md".toList
      ("See [secret](../../secret.md) now.".toList, [])
      ⟨"inline", 4, 29, "secret".toList, "../../secret.md".toList, 1, 5,
        "[secret](../../secret.md)".toList, [], "../../secret.md".toList⟩ =
      ("See [secret](../../secret.md) now.".toList,
       [] ++ [⟨"a/b.md".toList, "../../secret.md".toList,
         "path escapes documentation root"⟩]) :=
  convert_links_root_escape.1 wiki_structure [] _ "a/b.md".toList _ _
    rfl (by decide) (by decide) (by decide) (by decide) (by decide)
    (by decide) (by decide)


end WikiLinks
